import Mathlib

/-!
Verification of the OCR bus-schedule text parser and ETA projector of
`src/main.py` (`parse_text_to_stops`, the `/api/bus/parse-image` fallback
branch, and the per-stop loop of `compute_eta`).

The Python code is shallowly embedded as executable Lean functions over
`String` / `List Char`.  Python `int` values become `Int` (with `Nat` for
values that are provably non-negative, such as minutes-of-day read from
digit groups).  The three regular expressions of the parser are embedded as
deterministic matchers that reproduce Python `re` backtracking semantics
(leftmost match, lazy `.+?`, greedy quantifiers, alternation order) for the
three concrete patterns of the source.  Notes on modelling fidelity:

* `\d` is modelled as the ASCII digits `0-9` (Python's `re` in Unicode mode
  also accepts other Unicode decimal digits; no claim depends on those).
* `re.IGNORECASE` on the unit suffix `(min|m|minutes?)` is modelled by
  ASCII lowercasing, which covers every string the pattern can accept.
* `$` is modelled as end-of-string.  Python additionally lets `$` match
  just before one trailing newline, but the matchers are only applied to
  the output of the line normalizer, which never contains a newline.
* Python `int(...)` string parsing is modelled as optional surrounding
  whitespace, an optional single sign, and a non-empty ASCII digit run
  (the rarely used underscore digit separators are not modelled).
-/

/-- Python `str.isspace` / regex `\s` on the characters relevant here:
ASCII whitespace plus the Unicode whitespace code points Python treats as
space. -/
def pyIsSpace (c : Char) : Bool :=
  c = ' ' || c = '\t' || c = '\n' || c = '\r' || c = '\x0b' || c = '\x0c' ||
  c = '\x1c' || c = '\x1d' || c = '\x1e' || c = '\x1f' || c = '\x85' ||
  c = '\xa0' || c = ' ' || (0x2000 ≤ c.toNat && c.toNat ≤ 0x200a) ||
  c = ' ' || c = ' ' || c = ' ' || c = ' ' || c = '　'

/-- Line-boundary characters of Python `str.splitlines`. -/
def isLineBreak (c : Char) : Bool :=
  c = '\n' || c = '\r' || c = '\x0b' || c = '\x0c' || c = '\x1c' ||
  c = '\x1d' || c = '\x1e' || c = '\x85' || c = ' ' || c = ' '

/-- Strip characters satisfying `p` from both ends of a list
(Python `str.strip` with an explicit character set). -/
def stripWith (p : Char → Bool) (l : List Char) : List Char :=
  ((l.dropWhile p).reverse.dropWhile p).reverse

/-- Python `str.strip()` (whitespace from both ends). -/
def pyStrip (s : String) : String :=
  String.mk (stripWith pyIsSpace s.data)

/-- Worker for `pySplitlines`: `acc` is the current line, reversed.
`\r\n` counts as a single boundary; a final line is emitted only if
non-empty, matching Python `str.splitlines`. -/
def splitlinesAux : List Char → List Char → List (List Char)
  | acc, [] => if acc.isEmpty then [] else [acc.reverse]
  | acc, '\r' :: '\n' :: t => acc.reverse :: splitlinesAux [] t
  | acc, c :: t =>
    if isLineBreak c then acc.reverse :: splitlinesAux [] t
    else splitlinesAux (c :: acc) t

/-- Python `str.splitlines`. -/
def pySplitlines (s : String) : List String :=
  (splitlinesAux [] s.data).map String.mk

/-- Line normalizer of `parse_text_to_stops` (main.py line 151):
`[l.strip() for l in text.splitlines() if l.strip()]`. -/
def linesOf (text : String) : List String :=
  ((pySplitlines text).map pyStrip).filter (fun s => !s.isEmpty)

/-- Numeric value of an ASCII digit. -/
def dval (c : Char) : Nat := c.toNat - 48

/-- Value of an ASCII digit run (Python `int` on a digit-only string). -/
def digitsToNat (l : List Char) : Nat :=
  l.foldl (fun a c => a * 10 + dval c) 0

/-- Case-insensitive check that the text remaining after the minute digits
and following whitespace is empty or one of the unit words accepted by
`(min|m|minutes?)?$` (main.py line 155), in Python alternation order. -/
def unitOk (r : List Char) : Bool :=
  let w := r.map Char.toLower
  w = [] || w = ['m', 'i', 'n'] || w = ['m'] ||
  w = ['m', 'i', 'n', 'u', 't', 'e', 's'] || w = ['m', 'i', 'n', 'u', 't', 'e']

/-- Matcher for the part of `time_line_pattern` after the (lazy) name
capture: `\s+(-\s*)?(?P<min>\d{1,3})\s*(min|m|minutes?)?$`.  Returns the
captured minute digits.  Each greedy quantifier here is forced (the
character classes of adjacent pattern pieces are disjoint), so the
backtracking search collapses to this deterministic scan. -/
def afterName (rest : List Char) : Option (List Char) :=
  if (rest.takeWhile pyIsSpace).isEmpty then none
  else
    let r1 := rest.dropWhile pyIsSpace
    let r2 := match r1 with
      | '-' :: t => t.dropWhile pyIsSpace
      | _ => r1
    let ds := r2.takeWhile Char.isDigit
    if ds.isEmpty || 3 < ds.length then none
    else
      let r3 := (r2.dropWhile Char.isDigit).dropWhile pyIsSpace
      if unitOk r3 then some ds else none

/-- Worker for `matchTimeLine`: tries name prefixes in increasing length
(Python lazy `.+?`; `.` does not match a newline), first success wins.
`acc` holds the reversed name candidate so far. -/
def matchTimeLineAux : List Char → List Char → Option (List Char × List Char)
  | _, [] => none
  | acc, c :: rest =>
    if c = '\n' then none
    else
      match afterName rest with
      | some ds => some ((c :: acc).reverse, ds)
      | none => matchTimeLineAux (c :: acc) rest

/-- `time_line_pattern.match` of main.py line 155:
`^(?P<name>.+?)\s+(-\s*)?(?P<min>\d{1,3})\s*(min|m|minutes?)?$` with
`re.I`.  Returns the `name` and `min` captures on success. -/
def matchTimeLine (l : List Char) : Option (List Char × List Char) :=
  matchTimeLineAux [] l

/-- One attempt of `hhmm_pattern = (\d{1,2}):(\d{2})` anchored at the
current position: the two-digit hour is tried before the one-digit hour
(greedy `\d{1,2}`).  Returns hour, minute and the rest of the input after
the match. -/
def tryHM (l : List Char) : Option (Nat × Nat × List Char) :=
  match l with
  | a :: b :: c :: d :: e :: rest =>
    if a.isDigit && b.isDigit && c = ':' && d.isDigit && e.isDigit then
      some (dval a * 10 + dval b, dval d * 10 + dval e, rest)
    else if a.isDigit && b = ':' && c.isDigit && d.isDigit then
      some (dval a, dval c * 10 + dval d, e :: rest)
    else none
  | [a, b, c, d] =>
    if a.isDigit && b = ':' && c.isDigit && d.isDigit then
      some (dval a, dval c * 10 + dval d, [])
    else none
  | _ => none

/-- Fuel-indexed scan for `hhmm_pattern.findall` (non-overlapping,
left-to-right; on failure the scan advances one character).  The fuel is
an upper bound on the scan length, consumed at least as fast as the
input, so `findTimes` below never exhausts it. -/
def findTimesAux : Nat → List Char → List (Nat × Nat)
  | 0, _ => []
  | _ + 1, [] => []
  | fuel + 1, l =>
    match tryHM l with
    | some (h, m, rest) => (h, m) :: findTimesAux fuel rest
    | none =>
      match l with
      | [] => []
      | _ :: t => findTimesAux fuel t

/-- `hhmm_pattern.findall(l)` of main.py line 167, already converted to
numeric `(hour, minute)` pairs as in
`[(int(h), int(m)) for h, m in hhmm_pattern.findall(l)]`. -/
def findTimes (l : List Char) : List (Nat × Nat) :=
  findTimesAux l.length l

/-- A parsed stop: `{"name": ..., "travel_minutes_from_prev": ...}`
(also the shape of `StopModel` in main.py lines 106-108; the minute field
is a Python `int`, hence `Int`). -/
structure Stop where
  name : String
  travel_minutes_from_prev : Int
deriving DecidableEq

/-- State of the parse loop of `parse_text_to_stops`: the accumulated
`stops` list and the cross-line clock accumulator `last_time`
(minutes since midnight of the last clock token seen). -/
structure ParseState where
  stops : List Stop
  last_time : Option Nat
deriving DecidableEq

/-- `f"Fermata {k}"` (main.py lines 175 and 182). -/
def fermataName (k : Nat) : String :=
  "Fermata " ++ Nat.repr k

/-- Characters stripped from a matched time-line name:
`m.group("name").strip("-• ")` (main.py line 161). -/
def isDashDot (c : Char) : Bool :=
  c = '-' || c = '•' || c = ' '

/-- The time-line branch of the parse loop (main.py lines 159-165). -/
def timelineStep (st : ParseState) (nm ds : List Char) : ParseState :=
  { stops := st.stops ++
      [⟨String.mk (stripWith isDashDot nm), (digitsToNat ds : Int)⟩],
    last_time := none }

/-- Inner loop of the two-or-more-clock-tokens branch (main.py lines
171-176): successive pairwise diffs, skipping negative ones; the stop
name index is `len(stops) + 1` over the whole accumulated list. -/
def clockDiffsAux (stops : List Stop) (prev : Nat) : List Nat → List Stop
  | [] => stops
  | cur :: t =>
    if ((cur : Int) - (prev : Int)) < 0 then clockDiffsAux stops cur t
    else
      clockDiffsAux
        (stops ++ [⟨fermataName (stops.length + 1), (cur : Int) - (prev : Int)⟩])
        cur t

/-- Pairwise-diff pass over the minute values of one line. -/
def clockDiffs (stops : List Stop) (mins : List Nat) : List Stop :=
  match mins with
  | [] => stops
  | m0 :: rest => clockDiffsAux stops m0 rest

/-- The clock-sequence branches of the parse loop (main.py lines 166-184),
reached when the time-line pattern did not match.  `mins[-1]` is modelled
with `getLastD` (the list is non-empty whenever that branch is taken). -/
def clockStep (st : ParseState) (times : List (Nat × Nat)) : ParseState :=
  if 2 ≤ times.length then
    { stops := clockDiffs st.stops (times.map (fun t => t.1 * 60 + t.2)),
      last_time := some ((times.map (fun t => t.1 * 60 + t.2)).getLastD 0) }
  else
    match times, st.last_time with
    | [(h, m)], some prev =>
      if 0 ≤ ((h * 60 + m : Nat) : Int) - (prev : Int) then
        { stops := st.stops ++
            [⟨fermataName (st.stops.length + 1), ((h * 60 + m : Nat) : Int) - (prev : Int)⟩],
          last_time := some (h * 60 + m) }
      else
        { stops := st.stops, last_time := some (h * 60 + m) }
    | _, _ => st

/-- Body of the per-line loop of `parse_text_to_stops`
(main.py lines 158-184). -/
def processLine (st : ParseState) (l : String) : ParseState :=
  match matchTimeLine l.data with
  | some (nm, ds) => timelineStep st nm ds
  | none => clockStep st (findTimes l.data)

/-- The `[-•]` alternative of the bullet head. -/
def bulletDashHead : List Char → Option (List Char)
  | c :: t => if c = '-' || c = '•' then some t else none
  | [] => none

/-- The dot after the digit run of the `\d+\.` alternative. -/
def bulletDotHead : List Char → Option (List Char)
  | c :: t => if c = '.' then some t else none
  | [] => none

/-- Head of the bullet fallback pattern `^(?:\d+\.|[-•])` (main.py line
188): a maximal non-empty digit run followed by a dot, or a single dash
or bullet character.  Returns the rest of the line. -/
def bulletHead (l : List Char) : Option (List Char) :=
  if (l.takeWhile Char.isDigit).isEmpty then bulletDashHead l
  else bulletDotHead (l.dropWhile Char.isDigit)

/-- The `\s*(.+)$` capture of the bullet pattern.  The greedy `\s*` takes
all whitespace when at least one character remains for `.+`; if the whole
remainder is whitespace, backtracking leaves exactly one (whitespace)
character for `.+`.  `.` cannot match a newline (the normalizer never
produces one). -/
def bulletCapture (r : List Char) : Option (List Char) :=
  if !(r.dropWhile pyIsSpace).isEmpty then
    if (r.dropWhile pyIsSpace).contains '\n' then none
    else some (r.dropWhile pyIsSpace)
  else
    match r.getLast? with
    | some c => if c = '\n' then none else some [c]
    | none => none

/-- `bullet.match(l)` followed by `b.group(1).strip()`
(main.py lines 188-192). -/
def bulletName (l : List Char) : Option (List Char) :=
  match bulletHead l with
  | some r => (bulletCapture r).map (stripWith pyIsSpace)
  | none => none

/-- One line of the bullet-fallback loop (main.py lines 189-193). -/
def bulletStep (acc : List Stop) (l : String) : List Stop :=
  match bulletName l.data with
  | some nm => acc ++ [⟨String.mk nm, 3⟩]
  | none => acc

/-- The bullet-fallback pass over all normalized lines
(main.py lines 186-193). -/
def bulletStops (ls : List String) : List Stop :=
  ls.foldl bulletStep []

/-- `stops[0]["travel_minutes_from_prev"] = 0` when non-empty
(main.py lines 195-197). -/
def forceFirstZero : List Stop → List Stop
  | [] => []
  | s :: t => { s with travel_minutes_from_prev := 0 } :: t

/-- Stops produced before the first-stop zeroing: the per-line pattern
pass, replaced by the bullet fallback when it produced nothing. -/
def rawStops (ls : List String) : List Stop :=
  if ((ls.foldl processLine { stops := [], last_time := none }).stops).isEmpty then
    bulletStops ls
  else (ls.foldl processLine { stops := [], last_time := none }).stops

/-- `parse_text_to_stops` (main.py lines 150-199). -/
def parse_text_to_stops (text : String) : List Stop :=
  forceFirstZero (rawStops (linesOf text))

/-- Response of `/api/bus/parse-image` as a function of the extracted
text (main.py lines 228-237): `None` and `""` are falsy and produce the
empty result with the guidance note (its Italian text abbreviated here). -/
structure ParseImageResponse where
  text : String
  stops : List Stop
  note : Option String
deriving DecidableEq

/-- The pure tail of the `parse_image` endpoint (main.py lines 228-237),
as a function of the OCR-extracted text (`none` models Python `None`). -/
def parse_image_result (extracted : Option String) : ParseImageResponse :=
  match extracted with
  | none => ⟨"", [], some "OCR non disponibile."⟩
  | some t =>
    if t = "" then ⟨"", [], some "OCR non disponibile."⟩
    else ⟨t, parse_text_to_stops t, none⟩

/-!  ETA projector (`compute_eta`, main.py lines 240-269).  Only the
time-of-day matters: `base + timedelta(minutes=elapsed)` followed by
`strftime("%H:%M")` depends on the base's minutes-of-day and the elapsed
minutes alone, through a floor modulo by 1440 (Lean's `Int` `%` agrees
with Python's `%` for a positive modulus). -/

/-- One `h, m = map(int, start_time.split(":"))` component: Python `int`
over a string (optional surrounding whitespace, optional sign, non-empty
ASCII digit run; underscore separators not modelled). -/
def pyInt (s : String) : Option Int :=
  match stripWith pyIsSpace s.data with
  | '+' :: ds =>
    if !ds.isEmpty && ds.all Char.isDigit then some (digitsToNat ds : Int) else none
  | '-' :: ds =>
    if !ds.isEmpty && ds.all Char.isDigit then some (-(digitsToNat ds : Int)) else none
  | ds =>
    if !ds.isEmpty && ds.all Char.isDigit then some (digitsToNat ds : Int) else none

/-- Python `start_time.split(":")`: splitting on every colon, keeping
empty parts. -/
def splitColonAux : List Char → List Char → List String
  | acc, [] => [String.mk acc.reverse]
  | acc, c :: t =>
    if c = ':' then String.mk acc.reverse :: splitColonAux [] t
    else splitColonAux (c :: acc) t

/-- Python `s.split(":")`. -/
def pySplitColon (s : String) : List String :=
  splitColonAux [] s.data

/-- The `try` block of main.py lines 253-255: `start_time` must split on
`:` into exactly two `int`-parsable parts, and `now.replace(hour=h,
minute=m, ...)` requires `0 ≤ h ≤ 23` and `0 ≤ m ≤ 59`; any failure falls
back to the current time. -/
def parseStart (s : String) : Option (Nat × Nat) :=
  match pySplitColon s with
  | [a, b] =>
    match pyInt a, pyInt b with
    | some h, some m =>
      if 0 ≤ h ∧ h ≤ 23 ∧ 0 ≤ m ∧ m ≤ 59 then some (h.toNat, m.toNat) else none
    | _, _ => none
  | _ => none

/-- Base minutes-of-day used by `compute_eta` (main.py lines 251-259):
the parsed start time when valid, otherwise the current time. -/
def baseMinutes (start : Option String) (nowMin : Nat) : Nat :=
  match start with
  | none => nowMin
  | some s =>
    match parseStart s with
    | some (h, m) => h * 60 + m
    | none => nowMin

/-- Two-digit zero padding of `strftime` fields. -/
def fmt2 (k : Nat) : String :=
  if k < 10 then "0" ++ Nat.repr k else Nat.repr k

/-- `strftime("%H:%M")` of a minutes-of-day value below 1440. -/
def fmtHM (t : Nat) : String :=
  fmt2 (t / 60) ++ ":" ++ fmt2 (t % 60)

/-- `(base + timedelta(minutes=e)).strftime("%H:%M")` as a function of the
base minutes-of-day and the elapsed minutes: day rollover silently wraps
modulo 1440. -/
def etaOfElapsed (base : Nat) (e : Int) : String :=
  fmtHM (((base : Int) + e) % 1440).toNat

/-- One ETA entry `{"name": ..., "eta": ...}` (main.py line 267). -/
structure EtaEntry where
  name : String
  eta : String
deriving DecidableEq

/-- The per-stop loop of `compute_eta` (main.py lines 262-267): a running
elapsed-minutes accumulator, one entry per stop in order. -/
def etaLoop (base : Nat) : Int → List Stop → List EtaEntry
  | _, [] => []
  | elapsed, s :: t =>
    ⟨s.name, etaOfElapsed base (elapsed + s.travel_minutes_from_prev)⟩ ::
      etaLoop base (elapsed + s.travel_minutes_from_prev) t

/-- The `etas` list returned by `compute_eta` for a stored stop list, an
optional `start_time` query parameter, and the current minutes-of-day. -/
def compute_eta_etas (stops : List Stop) (start : Option String) (nowMin : Nat) :
    List EtaEntry :=
  etaLoop (baseMinutes start nowMin) 0 stops

/-- The successive values taken by the `elapsed` accumulator of
`compute_eta` across the stops. -/
def elapsedTrace : Int → List Stop → List Int
  | _, [] => []
  | e, s :: t =>
    (e + s.travel_minutes_from_prev) :: elapsedTrace (e + s.travel_minutes_from_prev) t

/-- Cumulative travel minutes of the first `k` stops (the value of the
`elapsed` accumulator after the `k`-th iteration). -/
def cumSum (stops : List Stop) (k : Nat) : Int :=
  ((stops.take k).map (fun s => s.travel_minutes_from_prev)).sum

/-- Decidable per-line form of the hypothesis of the amended claim C8:
whenever the time-line pattern matches the line, the stripped name capture
is non-empty. -/
def timelineNameOk (l : String) : Bool :=
  match matchTimeLine l.data with
  | some (nm, _) => !(stripWith isDashDot nm).isEmpty
  | none => true

/-! ## Helper lemmas -/

/-- `forceFirstZero` only touches the travel field of the head. -/
theorem forceFirstZero_head? (l : List Stop) (s : Stop)
    (h : (forceFirstZero l).head? = some s) : s.travel_minutes_from_prev = 0 := by
  cases l with
  | nil => simp [forceFirstZero] at h
  | cons x t =>
    simp only [forceFirstZero, List.head?_cons, Option.some.injEq] at h
    subst h
    rfl

/-! ## Claims -/

/-- C1 (counterexample): the claim that parsing `"08:00\n08:05\n08:20"`
produces three `Fermata` stops is false on the code: a line with exactly
one clock token is only diffed when the accumulator is already set, and
nothing ever sets it on this input. -/
theorem c1_counterexample :
    ¬ parse_text_to_stops "08:00\n08:05\n08:20" =
      [⟨"Fermata 1", 0⟩, ⟨"Fermata 2", 5⟩, ⟨"Fermata 3", 15⟩] := by
  decide

/-- C1 (amended): parsing `"08:00\n08:05\n08:20"` produces the empty stop
sequence: every line carries exactly one clock token while the accumulator
is unset, so no line contributes, and no line matches the bullet
fallback. -/
theorem c1_scenario2_empty :
    parse_text_to_stops "08:00\n08:05\n08:20" = [] := by
  decide

/-- C5: parsing `"Duomo - 5 min\nStazione 10 min"` produces
`[{Duomo, 0}, {Stazione, 10}]`: both lines match the time-line pattern,
names are stripped of dash/bullet decoration, and the first stop is
zeroed. -/
theorem c5_scenario1 :
    parse_text_to_stops "Duomo - 5 min\nStazione 10 min" =
      [⟨"Duomo", 0⟩, ⟨"Stazione", 10⟩] := by
  decide

/-- C2: for every input text, if the parser's output is non-empty then the
first stop's `travel_minutes_from_prev` is `0`, whatever any heuristic
computed for it. -/
theorem c2_first_stop_zero (text : String) (s : Stop)
    (h : (parse_text_to_stops text).head? = some s) :
    s.travel_minutes_from_prev = 0 := by
  exact forceFirstZero_head? _ _ h

/-- C2 witness. -/
theorem c2_first_stop_zero_witness :
    (parse_text_to_stops "Duomo - 5 min").head? = some ⟨"Duomo", 0⟩ ∧
    (⟨"Duomo", 0⟩ : Stop).travel_minutes_from_prev = 0 :=
  ⟨by decide, c2_first_stop_zero "Duomo - 5 min" ⟨"Duomo", 0⟩ (by decide)⟩

/-- C9: the parser is total on empty and absent input: `None` and `""`
both yield the empty stop sequence (with the guidance note), parsing the
empty string yields no stops, and line normalization removes blank lines
entirely rather than keeping placeholders. -/
theorem c9_empty_input :
    (parse_image_result none).stops = [] ∧
    (parse_image_result (some "")).stops = [] ∧
    parse_text_to_stops "" = [] ∧
    ∀ (text : String) (l : String), l ∈ linesOf text → l ≠ "" := by
  refine ⟨rfl, rfl, rfl, ?_⟩
  intro text l hl
  have h := (List.mem_filter.mp hl).2
  intro he
  subst he
  simp only [Bool.not_eq_true'] at h
  exact absurd h (by decide)

/-- C9 witness. -/
theorem c9_empty_input_witness :
    ("a" ∈ linesOf "a\n \nb") ∧ ("a" : String) ≠ "" :=
  ⟨by decide, c9_empty_input.2.2.2 "a\n \nb" "a" (by decide)⟩

/-- All stops of a list have a non-negative travel duration. -/
def NonnegStops (l : List Stop) : Prop :=
  ∀ s ∈ l, 0 ≤ s.travel_minutes_from_prev

theorem nonnegStops_append {l : List Stop} {x : Stop}
    (hl : NonnegStops l) (hx : 0 ≤ x.travel_minutes_from_prev) :
    NonnegStops (l ++ [x]) := by
  intro s hs
  rcases List.mem_append.mp hs with h | h
  · exact hl s h
  · simp only [List.mem_singleton] at h
    subst h
    exact hx

theorem clockDiffsAux_nonneg (rest : List Nat) :
    ∀ (stops : List Stop) (prev : Nat), NonnegStops stops →
      NonnegStops (clockDiffsAux stops prev rest) := by
  induction rest with
  | nil => intro stops prev h; simpa [clockDiffsAux] using h
  | cons cur t ih =>
    intro stops prev h
    simp only [clockDiffsAux]
    rcases lt_or_ge ((cur : Int) - (prev : Int)) 0 with hc | hc
    · rw [if_pos hc]
      exact ih _ _ h
    · rw [if_neg (not_lt.mpr hc)]
      exact ih _ _ (nonnegStops_append h hc)

theorem clockDiffs_nonneg (mins : List Nat) (stops : List Stop)
    (h : NonnegStops stops) : NonnegStops (clockDiffs stops mins) := by
  cases mins with
  | nil => simpa [clockDiffs] using h
  | cons m0 rest => exact clockDiffsAux_nonneg rest stops m0 h

theorem clockStep_nonneg (st : ParseState) (times : List (Nat × Nat))
    (h : NonnegStops st.stops) : NonnegStops (clockStep st times).stops := by
  unfold clockStep
  split
  · exact clockDiffs_nonneg _ _ h
  · split
    · rename_i heq1 heq2
      split
      · rename_i hge
        exact nonnegStops_append h hge
      · exact h
    · exact h

theorem processLine_nonneg (st : ParseState) (l : String)
    (h : NonnegStops st.stops) : NonnegStops (processLine st l).stops := by
  cases heq : matchTimeLine l.data with
  | some p =>
    obtain ⟨nm, ds⟩ := p
    simp only [processLine, heq, timelineStep]
    exact nonnegStops_append h (Int.natCast_nonneg _)
  | none =>
    simp only [processLine, heq]
    exact clockStep_nonneg st _ h

theorem foldl_processLine_nonneg (ls : List String) :
    ∀ st : ParseState, NonnegStops st.stops →
      NonnegStops ((ls.foldl processLine st).stops) := by
  induction ls with
  | nil => intro st h; simpa using h
  | cons l t ih =>
    intro st h
    simpa [List.foldl] using ih _ (processLine_nonneg st l h)

theorem bulletFold_nonneg (ls : List String) :
    ∀ acc : List Stop, NonnegStops acc → NonnegStops (ls.foldl bulletStep acc) := by
  induction ls with
  | nil => intro acc h; simpa using h
  | cons l t ih =>
    intro acc h
    simp only [List.foldl]
    apply ih
    cases heq : bulletName l.data with
    | some nm =>
      simp only [bulletStep, heq]
      exact nonnegStops_append h (by norm_num)
    | none => simpa [bulletStep, heq] using h

theorem forceFirstZero_nonneg (l : List Stop) (h : NonnegStops l) :
    NonnegStops (forceFirstZero l) := by
  cases l with
  | nil => intro s hs; cases hs
  | cons x t =>
    intro s hs
    rcases List.mem_cons.mp hs with he | ht
    · subst he; norm_num
    · exact h s (List.mem_cons_of_mem x ht)

/-- C3: every stop produced by the parser, whichever pattern emitted it,
has a non-negative `travel_minutes_from_prev`. -/
theorem c3_travel_nonneg (text : String) (s : Stop)
    (hs : s ∈ parse_text_to_stops text) : 0 ≤ s.travel_minutes_from_prev := by
  apply forceFirstZero_nonneg (rawStops (linesOf text)) _ s hs
  unfold rawStops
  split
  · exact bulletFold_nonneg _ _ (by intro x hx; cases hx)
  · exact foldl_processLine_nonneg _ _ (by intro x hx; cases hx)

/-- C3 witness. -/
theorem c3_travel_nonneg_witness :
    ((⟨"Stazione", 10⟩ : Stop) ∈ parse_text_to_stops "Duomo - 5 min\nStazione 10 min") ∧
    (0 : Int) ≤ (10 : Int) :=
  ⟨by decide, c3_travel_nonneg "Duomo - 5 min\nStazione 10 min" ⟨"Stazione", 10⟩ (by decide)⟩

/-- C4: on a line with exactly one clock token, with the accumulator set
to `prev`: a negative diff emits no stop but still advances the
accumulator; a non-negative diff emits exactly one stop
`Fermata (count + 1)` carrying the diff, and advances the accumulator. -/
theorem c4_single_clock_step (st : ParseState) (l : String) (h m prev : Nat)
    (h1 : matchTimeLine l.data = none)
    (h2 : findTimes l.data = [(h, m)])
    (h3 : st.last_time = some prev) :
    (h * 60 + m < prev →
      processLine st l = { stops := st.stops, last_time := some (h * 60 + m) }) ∧
    (prev ≤ h * 60 + m →
      processLine st l =
        { stops := st.stops ++
            [⟨fermataName (st.stops.length + 1),
              ((h * 60 + m : Nat) : Int) - (prev : Int)⟩],
          last_time := some (h * 60 + m) }) := by
  obtain ⟨stops, lt⟩ := st
  simp only at h3
  subst h3
  simp only [processLine, h1, h2, clockStep, List.length_cons, List.length_nil]
  constructor
  · intro hlt
    rw [if_neg (by omega), if_neg (by omega)]
  · intro hge
    rw [if_neg (by omega), if_pos (by omega)]

/-- C4 witness (also exercising the negative-diff half on `prev = 500`). -/
theorem c4_single_clock_step_witness :
    matchTimeLine "08:00".data = none ∧
    findTimes "08:00".data = [(8, 0)] ∧
    processLine ⟨[], some 500⟩ "08:00" = ⟨[], some 480⟩ :=
  ⟨by decide, by decide,
    (c4_single_clock_step ⟨[], some 500⟩ "08:00" 8 0 500 (by decide) (by decide) rfl).1
      (by norm_num)⟩

/-- `clockStep` leaves the state unchanged when the accumulator is unset
and the line has fewer than two clock tokens. -/
theorem clockStep_unset (st : ParseState) (times : List (Nat × Nat))
    (h0 : st.last_time = none) (hlen : ¬ 2 ≤ times.length) :
    clockStep st times = st := by
  obtain ⟨stops, lt⟩ := st
  simp only at h0
  subst h0
  match times with
  | [] => simp [clockStep]
  | [(h, m)] => simp [clockStep]
  | a :: b :: t =>
    exact absurd (by simp [List.length_cons] : 2 ≤ (a :: b :: t).length) hlen

/-- C10: the accumulator can only go from unset to set through a line with
two or more clock tokens (and no time-line match); a single-token line
with the accumulator unset changes nothing; a time-line match resets the
accumulator to unset. -/
theorem c10_accumulator_transitions (st : ParseState) (l : String) :
    (st.last_time = none → (processLine st l).last_time ≠ none →
      matchTimeLine l.data = none ∧ 2 ≤ (findTimes l.data).length) ∧
    (st.last_time = none → matchTimeLine l.data = none →
      (findTimes l.data).length = 1 → processLine st l = st) ∧
    (∀ nm ds, matchTimeLine l.data = some (nm, ds) →
      (processLine st l).last_time = none) := by
  refine ⟨?_, ?_, ?_⟩
  · intro h0 hne
    cases heq : matchTimeLine l.data with
    | some p =>
      exfalso
      apply hne
      simp [processLine, heq, timelineStep]
    | none =>
      refine ⟨rfl, ?_⟩
      by_contra hlen
      apply hne
      simp only [processLine, heq]
      rw [clockStep_unset st _ h0 hlen]
      exact h0
  · intro h0 hm hlen
    simp only [processLine, hm]
    exact clockStep_unset st _ h0 (by omega)
  · intro nm ds heq
    simp [processLine, heq, timelineStep]

/-- C10 witness: a two-token line sets the accumulator from unset. -/
theorem c10_accumulator_transitions_witness :
    (processLine ⟨[], none⟩ "08:00 08:30").last_time ≠ none ∧
    matchTimeLine "08:00 08:30".data = none ∧
    2 ≤ (findTimes "08:00 08:30".data).length :=
  ⟨by decide,
    (c10_accumulator_transitions ⟨[], none⟩ "08:00 08:30").1 rfl (by decide)⟩

theorem etaLoop_length (stops : List Stop) :
    ∀ (base : Nat) (e : Int), (etaLoop base e stops).length = stops.length := by
  induction stops with
  | nil => intro base e; rfl
  | cons s t ih => intro base e; simp [etaLoop, ih]

theorem cumSum_cons_succ (s : Stop) (t : List Stop) (k : Nat) :
    cumSum (s :: t) (k + 1) = s.travel_minutes_from_prev + cumSum t k := by
  simp [cumSum, List.take_succ_cons]

theorem etaLoop_getD (stops : List Stop) :
    ∀ (base : Nat) (e : Int) (i : Nat), i < stops.length →
      (etaLoop base e stops).getD i ⟨"", ""⟩ =
        ⟨(stops.getD i ⟨"", 0⟩).name, etaOfElapsed base (e + cumSum stops (i + 1))⟩ := by
  induction stops with
  | nil => intro base e i hi; simp at hi
  | cons s t ih =>
    intro base e i hi
    cases i with
    | zero => simp [etaLoop, cumSum, List.take_succ_cons]
    | succ j =>
      have hj : j < t.length := by simpa using hi
      simp only [etaLoop, List.getD_cons_succ]
      rw [ih base (e + s.travel_minutes_from_prev) j hj, cumSum_cons_succ]
      simp [add_assoc]

/-- C6: for a stop sequence and a validly parsed `HH:MM` start time, the
projector yields one entry per stop in order, the entry's `eta` being the
base time plus the cumulative travel minutes up to and including that
stop, rendered as zero-padded 24-hour `HH:MM`; in particular the
`08:00`-based scenario over `[{A,0},{B,5},{C,15}]`. -/
theorem c6_eta_projection :
    (∀ (stops : List Stop) (s : String) (h m nowMin : Nat),
      parseStart s = some (h, m) →
      (compute_eta_etas stops (some s) nowMin).length = stops.length ∧
      ∀ i, i < stops.length →
        (compute_eta_etas stops (some s) nowMin).getD i ⟨"", ""⟩ =
          ⟨(stops.getD i ⟨"", 0⟩).name,
            etaOfElapsed (h * 60 + m) (cumSum stops (i + 1))⟩) ∧
    (∀ nowMin : Nat,
      compute_eta_etas [⟨"A", 0⟩, ⟨"B", 5⟩, ⟨"C", 15⟩] (some "08:00") nowMin =
        [⟨"A", "08:00"⟩, ⟨"B", "08:05"⟩, ⟨"C", "08:20"⟩]) := by
  constructor
  · intro stops s h m nowMin hp
    have hb : baseMinutes (some s) nowMin = h * 60 + m := by
      simp [baseMinutes, hp]
    constructor
    · simp [compute_eta_etas, hb, etaLoop_length]
    · intro i hi
      simp only [compute_eta_etas, hb]
      have hg := etaLoop_getD stops (h * 60 + m) 0 i hi
      rw [zero_add] at hg
      exact hg
  · intro nowMin
    have hp : parseStart "08:00" = some (8, 0) := by decide
    simp only [compute_eta_etas, baseMinutes, hp]
    decide

/-- C6 witness. -/
theorem c6_eta_projection_witness :
    parseStart "08:00" = some (8, 0) ∧
    (compute_eta_etas [⟨"A", 0⟩, ⟨"B", 5⟩, ⟨"C", 15⟩] (some "08:00") 0).length = 3 :=
  ⟨by decide, by
    have hl :=
      (c6_eta_projection.1 [⟨"A", 0⟩, ⟨"B", 5⟩, ⟨"C", 15⟩] "08:00" 8 0 0 (by decide)).1
    simpa using hl⟩

theorem elapsedTrace_chain (stops : List Stop) :
    ∀ e : Int, NonnegStops stops →
      List.Chain' (· ≤ ·) (e :: elapsedTrace e stops) := by
  induction stops with
  | nil => intro e _; simp [elapsedTrace]
  | cons s t ih =>
    intro e h
    simp only [elapsedTrace]
    refine List.chain'_cons.mpr ⟨?_, ?_⟩
    · have hs := h s (List.mem_cons_self s t)
      linarith
    · exact ih (e + s.travel_minutes_from_prev)
        (fun x hx => h x (List.mem_cons_of_mem s hx))

theorem etaLoop_eq_zipWith (stops : List Stop) :
    ∀ (base : Nat) (e : Int),
      etaLoop base e stops =
        List.zipWith (fun st x => ⟨st.name, etaOfElapsed base x⟩)
          stops (elapsedTrace e stops) := by
  induction stops with
  | nil => intro base e; rfl
  | cons s t ih =>
    intro base e
    simp only [etaLoop, elapsedTrace, List.zipWith]
    rw [ih]

/-- C7: the cumulative elapsed-minutes values computed by the ETA
projector across the stops form a non-decreasing sequence (with the stop
durations non-negative, as the data model prescribes); `elapsedTrace` is
exactly the accumulator trace the projector zips the stops with. -/
theorem c7_elapsed_monotone (stops : List Stop) (start : Option String) (nowMin : Nat)
    (h : NonnegStops stops) :
    List.Chain' (· ≤ ·) (elapsedTrace 0 stops) ∧
    compute_eta_etas stops start nowMin =
      List.zipWith (fun st e => ⟨st.name, etaOfElapsed (baseMinutes start nowMin) e⟩)
        stops (elapsedTrace 0 stops) :=
  ⟨(elapsedTrace_chain stops 0 h).tail, etaLoop_eq_zipWith stops _ 0⟩

/-- C7 witness. -/
theorem c7_elapsed_monotone_witness :
    NonnegStops [⟨"A", 0⟩, ⟨"B", 5⟩] ∧
    List.Chain' (· ≤ ·) (elapsedTrace 0 [⟨"A", 0⟩, ⟨"B", 5⟩]) :=
  ⟨by unfold NonnegStops; decide,
    (c7_elapsed_monotone [⟨"A", 0⟩, ⟨"B", 5⟩] none 0 (by unfold NonnegStops; decide)).1⟩

/-- All stops of a list have a non-empty name. -/
def NamesOk (l : List Stop) : Prop :=
  ∀ s ∈ l, s.name ≠ ""

theorem namesOk_append {l : List Stop} {x : Stop}
    (hl : NamesOk l) (hx : x.name ≠ "") : NamesOk (l ++ [x]) := by
  intro s hs
  rcases List.mem_append.mp hs with h | h
  · exact hl s h
  · simp only [List.mem_singleton] at h
    subst h
    exact hx

theorem string_eq_empty_of_data (s : String) (h : s.data = []) : s = "" := by
  cases s
  subst h
  rfl

theorem stringMk_ne_empty {l : List Char} (h : l ≠ []) : String.mk l ≠ "" := by
  intro hc
  exact h (congrArg String.data hc)

theorem isEmpty_false_ne_nil {l : List Char} (h : l.isEmpty = false) : l ≠ [] := by
  intro he
  subst he
  simp at h

theorem fermataName_ne_empty (k : Nat) : fermataName k ≠ "" := by
  intro h
  have hlen := congrArg String.length h
  rw [fermataName, String.length_append] at hlen
  have h8 : ("Fermata " : String).length = 8 := by decide
  have h0 : ("" : String).length = 0 := by decide
  omega

theorem clockDiffsAux_namesOk (rest : List Nat) :
    ∀ (stops : List Stop) (prev : Nat), NamesOk stops →
      NamesOk (clockDiffsAux stops prev rest) := by
  induction rest with
  | nil => intro stops prev h; simpa [clockDiffsAux] using h
  | cons cur t ih =>
    intro stops prev h
    simp only [clockDiffsAux]
    rcases lt_or_ge ((cur : Int) - (prev : Int)) 0 with hc | hc
    · rw [if_pos hc]
      exact ih _ _ h
    · rw [if_neg (not_lt.mpr hc)]
      exact ih _ _ (namesOk_append h (fermataName_ne_empty _))

theorem clockDiffs_namesOk (mins : List Nat) (stops : List Stop)
    (h : NamesOk stops) : NamesOk (clockDiffs stops mins) := by
  cases mins with
  | nil => simpa [clockDiffs] using h
  | cons m0 rest => exact clockDiffsAux_namesOk rest stops m0 h

theorem clockStep_namesOk (st : ParseState) (times : List (Nat × Nat))
    (h : NamesOk st.stops) : NamesOk (clockStep st times).stops := by
  unfold clockStep
  split
  · exact clockDiffs_namesOk _ _ h
  · split
    · split
      · exact namesOk_append h (fermataName_ne_empty _)
      · exact h
    · exact h

theorem processLine_namesOk (st : ParseState) (l : String)
    (hok : timelineNameOk l = true) (h : NamesOk st.stops) :
    NamesOk (processLine st l).stops := by
  cases heq : matchTimeLine l.data with
  | some p =>
    obtain ⟨nm, ds⟩ := p
    simp only [processLine, heq, timelineStep]
    simp only [timelineNameOk, heq, Bool.not_eq_true'] at hok
    exact namesOk_append h (stringMk_ne_empty (isEmpty_false_ne_nil hok))
  | none =>
    simp only [processLine, heq]
    exact clockStep_namesOk st _ h

theorem foldl_processLine_namesOk (ls : List String) :
    ∀ st : ParseState, (∀ l ∈ ls, timelineNameOk l = true) → NamesOk st.stops →
      NamesOk ((ls.foldl processLine st).stops) := by
  induction ls with
  | nil => intro st _ h; simpa using h
  | cons l t ih =>
    intro st hok h
    simp only [List.foldl]
    exact ih _ (fun x hx => hok x (List.mem_cons_of_mem l hx))
      (processLine_namesOk st l (hok l (List.mem_cons_self l t)) h)

theorem dropWhile_head_false (p : Char → Bool) (l : List Char) :
    l.dropWhile p = [] ∨ ∃ c t, l.dropWhile p = c :: t ∧ p c = false := by
  induction l with
  | nil => exact Or.inl rfl
  | cons a t ih =>
    cases hpa : p a with
    | true => rw [List.dropWhile_cons_of_pos hpa]; exact ih
    | false =>
      exact Or.inr ⟨a, t, List.dropWhile_cons_of_neg (by simp [hpa]), hpa⟩

theorem dropWhile_eq_nil_all (p : Char → Bool) (l : List Char)
    (h : l.dropWhile p = []) : ∀ x ∈ l, p x = true := by
  induction l with
  | nil => intro x hx; cases hx
  | cons a t ih =>
    cases hpa : p a with
    | true =>
      rw [List.dropWhile_cons_of_pos hpa] at h
      intro x hx
      rcases List.mem_cons.mp hx with he | ht
      · subst he; exact hpa
      · exact ih h x ht
    | false =>
      rw [List.dropWhile_cons_of_neg (by simp [hpa])] at h
      cases h

theorem stripWith_last_false (p : Char → Bool) (l : List Char)
    (h : stripWith p l ≠ []) :
    ∃ c t, (stripWith p l).reverse = c :: t ∧ p c = false := by
  rcases dropWhile_head_false p ((l.dropWhile p).reverse) with hnil | ⟨c, t, hct, hc⟩
  · exact absurd (by simp [stripWith, hnil]) h
  · exact ⟨c, t, by simp [stripWith, hct], hc⟩

theorem bulletDashHead_split (l : List Char) (r : List Char)
    (h : bulletDashHead l = some r) : ∃ pre, l = pre ++ r := by
  cases l with
  | nil => cases h
  | cons c t =>
    simp only [bulletDashHead] at h
    by_cases hc : (c = '-' || c = '•') = true
    · rw [if_pos hc, Option.some.injEq] at h
      subst h
      exact ⟨[c], rfl⟩
    · rw [if_neg hc] at h
      cases h

theorem bulletHead_split (l : List Char) (r : List Char)
    (h : bulletHead l = some r) : ∃ pre, l = pre ++ r := by
  unfold bulletHead at h
  by_cases hd : (l.takeWhile Char.isDigit).isEmpty
  · rw [if_pos hd] at h
    exact bulletDashHead_split l r h
  · rw [if_neg hd] at h
    rcases hdw : l.dropWhile Char.isDigit with _ | ⟨c, t⟩ <;> rw [hdw] at h
    · cases h
    · simp only [bulletDotHead] at h
      by_cases hc : c = '.'
      · rw [if_pos hc, Option.some.injEq] at h
        subst h
        refine ⟨l.takeWhile Char.isDigit ++ [c], ?_⟩
        rw [List.append_assoc, List.singleton_append, ← hdw,
          List.takeWhile_append_dropWhile]
      · rw [if_neg hc] at h
        cases h

theorem bulletName_ne_nil (l : String) (raw : String)
    (hdata : l.data = stripWith pyIsSpace raw.data) (hne : l.data ≠ []) :
    ∀ nm, bulletName l.data = some nm → nm ≠ [] := by
  intro nm hbn
  have hlast : ∃ c t, (l.data).reverse = c :: t ∧ pyIsSpace c = false := by
    rw [hdata] at hne ⊢
    exact stripWith_last_false pyIsSpace raw.data hne
  obtain ⟨c, t, hrev, hc⟩ := hlast
  unfold bulletName at hbn
  cases hbh : bulletHead l.data with
  | none => rw [hbh] at hbn; cases hbn
  | some r =>
    rw [hbh, Option.map_eq_some'] at hbn
    obtain ⟨cap, hbc, hnm⟩ := hbn
    obtain ⟨pre, hpre⟩ := bulletHead_split l.data r hbh
    cases hcape : (r.dropWhile pyIsSpace).isEmpty with
    | false =>
      -- the capture is the non-space-headed tail of `r`
      simp only [bulletCapture, hcape, Bool.not_false, if_true] at hbc
      cases hcon : (r.dropWhile pyIsSpace).contains '\n' with
      | true => rw [hcon] at hbc; cases hbc
      | false =>
        rw [hcon] at hbc
        rw [if_neg (by simp), Option.some.injEq] at hbc
        rcases dropWhile_head_false pyIsSpace r with hnil | ⟨c2, t2, hct, hc2⟩
        · rw [hnil] at hcape; cases hcape
        · rw [hct] at hbc
          subst hbc
          subst hnm
          intro hnilnm
          rw [stripWith, List.dropWhile_cons_of_neg (by simp [hc2]),
            List.reverse_eq_nil_iff] at hnilnm
          have hall := dropWhile_eq_nil_all pyIsSpace (c2 :: t2).reverse hnilnm
          have : pyIsSpace c2 = true :=
            hall c2 (List.mem_reverse.mpr (List.mem_cons_self c2 t2))
          rw [hc2] at this
          cases this
    | true =>
      -- impossible: `r` would be all-whitespace, but it ends with the
      -- non-whitespace last character of the stripped line
      rcases hr' : r.reverse with _ | ⟨d, t'⟩
      · have hrnil : r = [] := by
          have := congrArg List.reverse hr'
          simpa using this
        subst hrnil
        simp [bulletCapture] at hbc
      · have hall := dropWhile_eq_nil_all pyIsSpace r
          (List.isEmpty_iff.mp hcape)
        have hrr : l.data.reverse = d :: (t' ++ pre.reverse) := by
          rw [hpre, List.reverse_append, hr']
          rfl
        rw [hrev] at hrr
        injection hrr with h1 _
        subst h1
        have hcr : c ∈ r := List.mem_reverse.mp (by rw [hr']; exact List.mem_cons_self _ _)
        rw [hall c hcr] at hc
        cases hc

theorem linesOf_bullet_ok (text : String) (l : String) (hl : l ∈ linesOf text) :
    ∀ nm, bulletName l.data = some nm → nm ≠ [] := by
  have hmem := List.mem_filter.mp hl
  obtain ⟨raw, _, hraw⟩ := List.mem_map.mp hmem.1
  have hdata : l.data = stripWith pyIsSpace raw.data := by
    rw [← hraw]
    rfl
  have hne : l.data ≠ [] := by
    intro hd
    have he := string_eq_empty_of_data l hd
    subst he
    have h2 := hmem.2
    simp only [Bool.not_eq_true'] at h2
    exact absurd h2 (by decide)
  exact bulletName_ne_nil l raw hdata hne

theorem bulletFold_namesOk (ls : List String)
    (hgood : ∀ l ∈ ls, ∀ nm, bulletName l.data = some nm → nm ≠ []) :
    ∀ acc : List Stop, NamesOk acc → NamesOk (ls.foldl bulletStep acc) := by
  induction ls with
  | nil => intro acc h; simpa using h
  | cons l t ih =>
    intro acc h
    simp only [List.foldl]
    apply ih (fun x hx => hgood x (List.mem_cons_of_mem l hx))
    cases heq : bulletName l.data with
    | some nm =>
      simp only [bulletStep, heq]
      exact namesOk_append h
        (stringMk_ne_empty (hgood l (List.mem_cons_self l t) nm heq))
    | none => simpa [bulletStep, heq] using h

theorem forceFirstZero_namesOk (l : List Stop) (h : NamesOk l) :
    NamesOk (forceFirstZero l) := by
  cases l with
  | nil => intro s hs; cases hs
  | cons x t =>
    intro s hs
    rcases List.mem_cons.mp hs with he | ht
    · subst he
      exact h x (List.mem_cons_self x t)
    · exact h s (List.mem_cons_of_mem x ht)

/-- C8 (counterexample): not every parsed stop has a non-empty name: on
the input `"- 5 min"` the time-line pattern captures the name `"-"`,
which strips to the empty string. -/
theorem c8_counterexample :
    ¬ ∀ (text : String) (s : Stop), s ∈ parse_text_to_stops text → s.name ≠ "" := by
  intro h
  exact h "- 5 min" ⟨"", 0⟩ (by decide) rfl

/-- C8 (amended): every stop produced by the clock-sequence pattern or
the bullet fallback has a non-empty name, and so does every time-line
stop whose stripped name capture is non-empty; hence on any text whose
time-line matches all strip to non-empty names, every parsed stop has a
non-empty name. -/
theorem c8_names_nonempty_amended (text : String)
    (hok : ∀ l ∈ linesOf text, timelineNameOk l = true) :
    ∀ s ∈ parse_text_to_stops text, s.name ≠ "" := by
  unfold parse_text_to_stops
  apply forceFirstZero_namesOk
  unfold rawStops
  split
  · exact bulletFold_namesOk _ (fun l hl => linesOf_bullet_ok text l hl) _
      (by intro x hx; cases hx)
  · exact foldl_processLine_namesOk _ _ hok (by intro x hx; cases hx)

/-- C8 witness. -/
theorem c8_names_nonempty_amended_witness :
    (∀ l ∈ linesOf "Duomo - 5 min", timelineNameOk l = true) ∧
    ((⟨"Duomo", 0⟩ : Stop) ∈ parse_text_to_stops "Duomo - 5 min") ∧
    ("Duomo" : String) ≠ "" :=
  ⟨by decide, by decide,
    c8_names_nonempty_amended "Duomo - 5 min" (by decide) ⟨"Duomo", 0⟩ (by decide)⟩
